import Mathlib

/-!
# Verification of the fs-delta-tracker crawl-and-ingest pipeline

Shallow embedding of the core of `rust-fs-delta-tracker`:

* `src/lib/crawler.rs` — `walk_directory`: the parallel directory walk, the
  per-entry record emission logic, the TSV line formatting, the shared
  progress counter, the writer thread and the shutdown sequence;
* `src/lib/data.rs` — `load_tsv_file`, `finalize_scan`,
  `get_files_count_by_change_type`, `get_file_size_by_change_type`,
  `clear_staging`;
* `src/bin/standalone.rs` — `main`: the scan lifecycle orchestrator.

Text is modelled as `List Char`; machine integers (`u64` sizes, `i32` scan
ids) as `Nat`/`Int` (no overflow is reachable in the modelled arithmetic);
Rust `Result` values whose error payload is never inspected as `IoResult`.
-/

/-- Textual data (file names, paths, TSV lines) as lists of characters. -/
abbrev Str := List Char

/-- A Rust `Result` whose `Err` payload the modelled code never inspects
(it only pattern-matches `Ok`): `if let Ok(x) = res { ... }`. -/
inductive IoResult (α : Type) where
  | ok (val : α)
  | err
deriving DecidableEq

/-- The file type reported by `DirEntry::file_type()` when available. -/
inductive EntryFileType where
  | file
  | dir
  | symlink
deriving DecidableEq

/-- `std::fs::FileType::is_file()`. -/
def EntryFileType.is_file : EntryFileType → Bool
  | .file => true
  | _ => false

/-- The slice of `std::fs::Metadata` read by the crawler: `meta.len()` and
the RFC 3339 rendering of `meta.modified()` when the modification time is
readable (`modified().ok().and_then(duration_since ...).map(to_rfc3339)`),
`none` when it is not. -/
structure FileMeta where
  len : Nat
  modifiedStr : Option Str
deriving DecidableEq

/-- One result handed to the walker callback in `crawler.rs` lines 102–141:
the entry's base file name (`ent.file_name()`), its display path
(`ent.path().display()`), its file type when determinable
(`ent.file_type()`), and its metadata when readable (`ent.metadata()`). -/
structure DirEntry where
  fileName : Str
  pathStr : Str
  fileType : Option EntryFileType
  metadata : IoResult FileMeta
deriving DecidableEq

/-- One emitted Record: the six TSV fields of `crawler.rs` lines 125–133. -/
structure Record where
  name : Str
  ext : Str
  path : Str
  size : Nat
  mtime : Str
  scanId : Int
deriving DecidableEq

/-- Split a file name at its last `'.'`, returning the parts before and
after it; `none` when the name has no `'.'`. Helper for `pathExtension`. -/
def lastDotSplit : Str → Option (Str × Str)
  | [] => none
  | c :: rest =>
    match lastDotSplit rest with
    | some (b, a) => some (c :: b, a)
    | none => if c = '.' then some ([], rest) else none

/-- Rust `Path::extension()` on the entry's file name: the part after the
last `'.'`, except that a name with no `'.'`, or whose only `'.'` is its
first character (such as `.gitignore`), has no extension. -/
def pathExtension (name : Str) : Option Str :=
  match lastDotSplit name with
  | some (before, after) => if before = [] then none else some after
  | none => none

/-- `ignore::WalkState` returned by the walker callback. -/
inductive WalkState where
  | Continue
deriving DecidableEq

/-- The walker callback of `crawler.rs` lines 102–141, minus the counter
increment and channel send: emits a Record exactly when the entry result is
`Ok`, its file type is known and is a regular file, and its metadata is
readable; the extension falls back to `"unknown"` and the mtime to the
epoch sentinel. Always tells the walker to continue. -/
def processEntry (scanId : Int) (res : IoResult DirEntry) :
    Option Record × WalkState :=
  match res with
  | .err => (none, .Continue)
  | .ok ent =>
    match ent.fileType with
    | none => (none, .Continue)
    | some ft =>
      if ft.is_file then
        match ent.metadata with
        | .err => (none, .Continue)
        | .ok meta =>
          (some
            { name := ent.fileName
              ext := (pathExtension ent.fileName).getD ("unknown".data)
              path := ent.pathStr
              size := meta.len
              mtime := meta.modifiedStr.getD ("1970-01-01T00:00:00Z".data)
              scanId := scanId },
            .Continue)
      else (none, .Continue)

/-- The Records emitted by one walk: every entry result run through the
callback, in the order the walker delivers them. -/
def walkRecords (scanId : Int) (entries : List (IoResult DirEntry)) :
    List Record :=
  entries.filterMap (fun res => (processEntry scanId res).1)

/-
## `data.rs`: change-type aggregates and `finalize_scan`
-/

/-- One row of `filesystem.file_changes` as read by the two aggregate
queries: scan id, change type, and the two nullable size columns. -/
structure FileChangeRow where
  scanId : Int
  changeType : Str
  oldSizeBytes : Option Int
  newSizeBytes : Option Int
deriving DecidableEq

/-- Whether a `file_changes` row matches `WHERE scan_id = $1 AND
change_type = $2`. -/
def rowMatches (scanId : Int) (changeType : Str) (row : FileChangeRow) :
    Bool :=
  row.scanId = scanId ∧ row.changeType = changeType

/-- `get_files_count_by_change_type` (`data.rs` lines 12–25):
`SELECT COUNT(*) ... WHERE scan_id = $1 AND change_type = $2`. -/
def get_files_count_by_change_type (rows : List FileChangeRow)
    (scanId : Int) (changeType : Str) : Int :=
  ((rows.filter (rowMatches scanId changeType)).length : Int)

/-- `get_file_size_by_change_type` (`data.rs` lines 28–41):
`SELECT COALESCE(SUM(ABS(COALESCE(new_size_bytes,0) -
COALESCE(old_size_bytes,0))),0) ... WHERE scan_id = $1 AND
change_type = $2` — an empty sum coalesces to `0`. -/
def get_file_size_by_change_type (rows : List FileChangeRow)
    (scanId : Int) (changeType : Str) : Int :=
  ((rows.filter (rowMatches scanId changeType)).map
    (fun row => |row.newSizeBytes.getD 0 - row.oldSizeBytes.getD 0|)).sum

/-- The values `finalize_scan` (`data.rs` lines 111–170) writes into the
`scan_runs` row: every field is a concrete value (counts default to `0`,
sizes to `0.0` via `unwrap_or`), never null or omitted. Megabyte sizes are
modelled over `ℚ` (`size as f64 / 1024.0 / 1024.0` is exact for these
magnitudes). -/
structure ScanRunUpdate where
  totalPathsCount : Int
  addedFilesCount : Int
  modifiedFilesCount : Int
  removedFilesCount : Int
  newDataMb : ℚ
  modifiedDataMb : ℚ
  deletedDataMb : ℚ
deriving DecidableEq

/-- `finalize_scan` (`data.rs` lines 111–170): for each of the three change
types query the count and the byte size, convert bytes to megabytes, and
update the `scan_runs` row with all eight result columns. -/
def finalize_scan (rows : List FileChangeRow) (scanId : Int)
    (totalFilesProcessed : Int) : ScanRunUpdate :=
  let countOf := fun ct => get_files_count_by_change_type rows scanId ct
  let sizeMbOf := fun ct =>
    ((get_file_size_by_change_type rows scanId ct : ℚ)) / 1024 / 1024
  { totalPathsCount := totalFilesProcessed
    addedFilesCount := countOf "added".data
    modifiedFilesCount := countOf "modified".data
    removedFilesCount := countOf "deleted".data
    newDataMb := sizeMbOf "added".data
    modifiedDataMb := sizeMbOf "modified".data
    deletedDataMb := sizeMbOf "deleted".data }

/-- The scan-id-independent part of a Record: the name, extension, path,
size and mtime fields. -/
def recordKey (r : Record) : Str × Str × Str × Nat × Str :=
  (r.name, r.ext, r.path, r.size, r.mtime)

/-
## `data.rs`: `load_tsv_file`
-/

/-- Strip one trailing `'\r'`, as `tokio`'s line reader does after popping
the `'\n'` of a line. -/
def stripCr (line : Str) : Str :=
  if line.getLast? = some '\r' then line.dropLast else line

/-- The `while let Some(line) = lines.next_line()` loop of `load_tsv_file`
(`data.rs` lines 96–103), processing the remaining input with the current
partial line accumulated: each completed line has its terminating `'\n'`
(and a preceding `'\r'`, if any) stripped by the line reader, then `"\n"`
re-appended and the line sent to the `COPY` sink, incrementing
`line_count`; a final unterminated line is delivered as-is. Returns the
sent chunks and the final `line_count`. -/
def load_tsv_aux : Str → Str → List Str × Nat
  | acc, [] => if acc.isEmpty then ([], 0) else ([acc ++ ['\n']], 1)
  | acc, c :: rest =>
    if c = '\n' then
      let r := load_tsv_aux [] rest
      ((stripCr acc ++ ['\n']) :: r.1, r.2 + 1)
    else
      load_tsv_aux (acc ++ [c]) rest

/-- `load_tsv_file` (`data.rs` lines 72–108) on the contents of the input
artifact: the chunks sent to the staging bulk ingest and the returned row
count. -/
def load_tsv_file (contents : Str) : List Str × Nat :=
  load_tsv_aux [] contents

/-- The number of lines in a text: one per `'\n'`, plus one for a final
unterminated line. -/
def fileLineCount (contents : Str) : Nat :=
  contents.count '\n' +
    (if contents = [] ∨ contents.getLast? = some '\n' then 0 else 1)

/-- Normalize every `"\r\n"` sequence to `"\n"`. -/
def crlfToLf : Str → Str
  | [] => []
  | [c] => [c]
  | c :: d :: rest =>
    if c = '\r' ∧ d = '\n' then '\n' :: crlfToLf rest
    else c :: crlfToLf (d :: rest)

/-- Append a final `'\n'` to a nonempty text that lacks one. -/
def withFinalNewline (s : Str) : Str :=
  if s = [] then []
  else if s.getLast? = some '\n' then s
  else s ++ ['\n']

/-
## `crawler.rs`: TSV line formatting and the staging artifact
-/

/-- The decimal digit characters, as Rust's `Display` renders them. -/
def digitChar (d : Nat) : Char :=
  if d = 0 then '0' else if d = 1 then '1' else if d = 2 then '2'
  else if d = 3 then '3' else if d = 4 then '4' else if d = 5 then '5'
  else if d = 6 then '6' else if d = 7 then '7' else if d = 8 then '8'
  else '9'

/-- The value of a decimal digit character, `none` for a non-digit. -/
def charVal (c : Char) : Option Nat :=
  if c = '0' then some 0 else if c = '1' then some 1
  else if c = '2' then some 2 else if c = '3' then some 3
  else if c = '4' then some 4 else if c = '5' then some 5
  else if c = '6' then some 6 else if c = '7' then some 7
  else if c = '8' then some 8 else if c = '9' then some 9 else none

/-- Digits of `n` in order, most significant first, empty for `0`; the fuel
bounds the recursion and any fuel `≥ n` is enough. -/
def natToCharsAux : Nat → Nat → Str
  | 0, _ => []
  | fuel + 1, n =>
    if n = 0 then []
    else natToCharsAux fuel (n / 10) ++ [digitChar (n % 10)]

/-- Decimal rendering of a natural number (Rust `Display` for `u64`). -/
def natToChars (n : Nat) : Str :=
  if n = 0 then ['0'] else natToCharsAux n n

/-- Decimal rendering of an integer (Rust `Display` for `i32`). -/
def intToChars (i : Int) : Str :=
  if i < 0 then '-' :: natToChars (-i).toNat else natToChars i.toNat

/-- Parse decimal digits onto an accumulator; `none` on a non-digit. -/
def charsToNatAux : Nat → Str → Option Nat
  | acc, [] => some acc
  | acc, c :: cs =>
    match charVal c with
    | none => none
    | some d => charsToNatAux (acc * 10 + d) cs

/-- Parse a nonempty all-digit string as a natural number. -/
def charsToNat : Str → Option Nat
  | [] => none
  | c :: cs => charsToNatAux 0 (c :: cs)

/-- Parse an optionally `'-'`-signed decimal integer. -/
def charsToInt : Str → Option Int
  | [] => none
  | c :: cs =>
    if c = '-' then (charsToNat cs).map (fun n => -(Int.ofNat n))
    else (charsToNat (c :: cs)).map (fun n => Int.ofNat n)

/-- The TSV line built for one Record (`crawler.rs` lines 125–133):
`format!("{}\t{}\t{}\t{}\t{}\t{}\n", fname, ext, path, size, mtime,
scan_id)` — six fields joined by tabs, newline-terminated, no header. -/
def formatLine (r : Record) : Str :=
  (r.name ++ '\t' :: (r.ext ++ '\t' :: (r.path ++ '\t' ::
    (natToChars r.size ++ '\t' :: (r.mtime ++ '\t' :: intToChars r.scanId)))))
    ++ ['\n']

/-- Split a character sequence into its tab-separated fields. -/
def splitTabs : Str → List Str
  | [] => [[]]
  | c :: rest =>
    match splitTabs rest with
    | [] => [[]]
    | f :: fs => if c = '\t' then [] :: f :: fs else (c :: f) :: fs

/-- Parse one artifact line back into a Record: the line must consist of a
newline-free body terminated by a single `'\n'`, the body must split into
exactly six tab-separated fields, and the size and scan-id fields must
parse as decimal numbers. -/
def parseLine (line : Str) : Option Record :=
  if line.getLast? = some '\n' ∧ '\n' ∉ line.dropLast then
    match splitTabs line.dropLast with
    | [n, e, p, s, m, i] =>
      match charsToNat s, charsToInt i with
      | some sz, some sid =>
        some { name := n, ext := e, path := p, size := sz, mtime := m,
               scanId := sid }
      | _, _ => none
    | _ => none
  else none

/-- A field that cannot disturb the line structure: it contains neither the
tab delimiter nor a newline. -/
abbrev cleanField (f : Str) : Prop :=
  '\t' ∉ f ∧ '\n' ∉ f

/-- The characters the Sink Writer persists (`crawler.rs` lines 35–38):
one `write_all` per received line, in receipt order; a failed `write_all`
(`let _ = out.write_all(...)`) silently drops that line. `writeOk i` tells
whether the `i`-th write succeeds. -/
def artifactChars (lines : List Str) (writeOk : Nat → Bool) : Str :=
  ((lines.enum.filter (fun p => writeOk p.1)).map Prod.snd).flatten

/-- The shared progress counter (`crawler.rs` lines 19, 134) after the
walker has delivered the first `k` entry results: it is bumped by
`fetch_add(1)` exactly once per emitted Record. -/
def counterAfter (scanId : Int) (entries : List (IoResult DirEntry))
    (k : Nat) : Nat :=
  (walkRecords scanId (entries.take k)).length

/-
## `crawler.rs`: `walk_directory` result
-/

/-- The run-metadata slice of `walk_directory`'s return value
(`crawler.rs` lines 174–190) that later phases consume. -/
structure WalkMeta where
  dataRoot : Str
  totalFiles : Nat
deriving DecidableEq

/-- The only error exit of `walk_directory`: the `?` on the awaited
spawn-blocking walk task (`crawler.rs` line 148). -/
inductive CrawlError where
  | taskPanic
deriving DecidableEq

/-- Whether an `Except` value is a success. -/
def exceptIsOk {ε α : Type} : Except ε α → Bool
  | .ok _ => true
  | .error _ => false

/-- `walk_directory` (`crawler.rs` lines 8–191): runs the callback over
every delivered entry result, counts emitted Records, and returns `Ok`
run metadata — writer outcomes are discarded (`let _ = out.write_all(...)`
at line 36, `let _ = writer_handle.join()` at line 162), so the result and
the counter are independent of write success; the artifact holds exactly
the successfully written lines. The modelled walk cannot panic, so the
one error exit is never taken. -/
def walk_directory (dataRoot : Str) (scanId : Int)
    (entries : List (IoResult DirEntry)) (writeOk : Nat → Bool) :
    Except CrawlError WalkMeta × Str :=
  let records := walkRecords scanId entries
  (Except.ok { dataRoot := dataRoot, totalFiles := records.length },
    artifactChars (records.map formatLine) writeOk)

/-
## `standalone.rs`: the orchestrator's phase sequence
-/

/-- The externally visible steps of the orchestrator `main`
(`standalone.rs`). -/
inductive MainEvent where
  | startScan
  | walk
  | load
  | delta
  | clearStaging
  | finalize
  | removeArtifact
deriving DecidableEq

/-- The entry stream the `ignore` walker delivers for a root: a missing
root is reported as a single `Err` entry (the root read error), not as a
walker-level failure. -/
def rootEntries (rootExists : Bool) (tree : List (IoResult DirEntry)) :
    List (IoResult DirEntry) :=
  if rootExists then tree else [IoResult.err]

/-- The orchestrator `main` (`standalone.rs` lines 61–131) as the sequence
of steps it completes, in program order: `start_scan` (line 62, issued
before any filesystem access of the root — no existence check precedes
it), `walk_directory` (line 70), `load_tsv_file` (line 88), the delta SQL
template (line 103), `clear_staging` (line 112), `finalize_scan`
(line 119), and the staging artifact removal (line 123). The phases after
the walk run only if the walk returned `Ok` (the `?` at line 80). -/
def mainRun (rootExists : Bool) (tree : List (IoResult DirEntry)) :
    List MainEvent :=
  MainEvent.startScan ::
    match (walk_directory ("/data".data) 1 (rootEntries rootExists tree)
        (fun _ => true)).1 with
    | .error _ => []
    | .ok _ =>
      [MainEvent.walk, MainEvent.load, MainEvent.delta,
        MainEvent.clearStaging, MainEvent.finalize,
        MainEvent.removeArtifact]

/-
## `crawler.rs`: shutdown ordering of the crawl phase

The shutdown of `walk_directory` involves three concurrent parties (the
walker workers, the writer thread, the progress thread) plus the main
task. We model its executions as linearizations of the happens-before
order generated by the program and its synchronization points.
-/

/-- The shutdown-relevant events of one `walk_directory` run, for a crawl
with two walker workers. -/
inductive WEvent where
  | workerRelease1
  | workerRelease2
  | dropMainTx
  | writerSeesEnd
  | writerFlushClose
  | stopSignal
  | progressExit
  | progressJoined
  | writerJoined
  | finalStats
deriving DecidableEq

/-- All shutdown events. -/
def allWEvents : List WEvent :=
  [.workerRelease1, .workerRelease2, .dropMainTx, .writerSeesEnd,
   .writerFlushClose, .stopSignal, .progressExit, .progressJoined,
   .writerJoined, .finalStats]

/-- The direct happens-before edges of `walk_directory`
(`crawler.rs`):
* each worker's sender clone is dropped before the main task, having
  awaited the walk (line 148), drops the original sender (line 152);
* the writer's `for line in rx` loop ends only once every sender has been
  dropped (line 35), and it then flushes and ends (line 38);
* program order of the main task: drop sender (152) → stop signal (157) →
  join progress (161) → join writer (162) → final stats (165);
* the progress thread exits on receiving the stop signal (lines 54–57)
  and its join returns after that;
* the writer join returns only after the writer flushed and ended. -/
def hbEdges : List (WEvent × WEvent) :=
  [(.workerRelease1, .dropMainTx), (.workerRelease2, .dropMainTx),
   (.dropMainTx, .writerSeesEnd),
   (.writerSeesEnd, .writerFlushClose),
   (.dropMainTx, .stopSignal),
   (.stopSignal, .progressExit),
   (.progressExit, .progressJoined),
   (.stopSignal, .progressJoined),
   (.progressJoined, .writerJoined),
   (.writerFlushClose, .writerJoined),
   (.writerJoined, .finalStats)]

/-- One direct happens-before edge. -/
def hbStep (a b : WEvent) : Bool :=
  hbEdges.contains (a, b)

/-- Reachability along happens-before edges, with enough fuel to cover all
ten events. -/
def hbFuel : Nat → WEvent → WEvent → Bool
  | 0, _, _ => false
  | fuel + 1, a, b =>
    hbStep a b || allWEvents.any (fun c => hbStep a c && hbFuel fuel c b)

/-- The happens-before order of the shutdown. -/
def hb (a b : WEvent) : Bool :=
  hbFuel 10 a b

/-- A possible execution of the shutdown: an interleaving of all ten
events that respects every happens-before constraint. -/
def isSchedule (l : List WEvent) : Bool :=
  (l.length == 10) && allWEvents.all (fun e => l.contains e) &&
    allWEvents.all (fun a => allWEvents.all (fun b =>
      !(hb a b) || decide (l.indexOf a < l.indexOf b)))

/-- The schedule in which every party runs to completion as soon as its
inputs are ready, in source order. -/
def sourceOrderSchedule : List WEvent :=
  [.workerRelease1, .workerRelease2, .dropMainTx, .writerSeesEnd,
   .writerFlushClose, .stopSignal, .progressExit, .progressJoined,
   .writerJoined, .finalStats]

/-- A schedule in which the progress monitor is signaled, exits, and is
joined while the writer thread has seen end of input but not yet flushed
and closed the artifact. -/
def lateWriterSchedule : List WEvent :=
  [.workerRelease1, .workerRelease2, .dropMainTx, .writerSeesEnd,
   .stopSignal, .progressExit, .progressJoined, .writerFlushClose,
   .writerJoined, .finalStats]

/-
## Theorems
-/

/-- C6: for every scan, `finalize_scan` writes a zero count and a zero
(`0.0`) size for any change category with no rows in the aggregate result,
never null or omitted (every `ScanRunUpdate` field is a total value); in
particular a scan whose id matches no `file_changes` row — such as a scan
over an empty directory — finalizes with
`added = modified = deleted = 0` and all size deltas `0`. -/
theorem finalize_scan_zero_for_absent_categories
    (rows : List FileChangeRow) (scanId total : Int) :
    (∀ ct : Str, (∀ row ∈ rows, rowMatches scanId ct row = false) →
      get_files_count_by_change_type rows scanId ct = 0 ∧
      get_file_size_by_change_type rows scanId ct = 0) ∧
    ((∀ row ∈ rows, row.scanId ≠ scanId) →
      finalize_scan rows scanId total =
        { totalPathsCount := total, addedFilesCount := 0,
          modifiedFilesCount := 0, removedFilesCount := 0,
          newDataMb := 0, modifiedDataMb := 0, deletedDataMb := 0 }) := by
  have hfilter : ∀ ct : Str, (∀ row ∈ rows, rowMatches scanId ct row = false) →
      rows.filter (rowMatches scanId ct) = [] := by
    intro ct h
    exact List.filter_eq_nil_iff.mpr (fun a ha => by simp [h a ha])
  constructor
  · intro ct h
    constructor
    · simp [get_files_count_by_change_type, hfilter ct h]
    · simp [get_file_size_by_change_type, hfilter ct h]
  · intro h
    have hmatch : ∀ ct : Str, ∀ row ∈ rows, rowMatches scanId ct row = false := by
      intro ct row hrow
      simp [rowMatches, h row hrow]
    simp only [finalize_scan]
    have hc : ∀ ct : Str, get_files_count_by_change_type rows scanId ct = 0 :=
      fun ct => by simp [get_files_count_by_change_type, hfilter ct (hmatch ct)]
    have hs : ∀ ct : Str, get_file_size_by_change_type rows scanId ct = 0 :=
      fun ct => by simp [get_file_size_by_change_type, hfilter ct (hmatch ct)]
    simp [hc, hs]

/-- C6 witness: on an empty `file_changes` table, every category count is
zero and the finalize update carries all-zero counts and sizes. -/
theorem finalize_scan_zero_for_absent_categories_witness :
    get_files_count_by_change_type [] 1 ("added".data) = 0 ∧
    finalize_scan [] 1 0 =
      { totalPathsCount := 0, addedFilesCount := 0, modifiedFilesCount := 0,
        removedFilesCount := 0, newDataMb := 0, modifiedDataMb := 0,
        deletedDataMb := 0 } :=
  ⟨((finalize_scan_zero_for_absent_categories [] 1 0).1 ("added".data)
      (by simp)).1,
   (finalize_scan_zero_for_absent_categories [] 1 0).2 (by simp)⟩

/-- C7: the walker callback emits a Record if and only if the entry result
is `Ok`, its file type is determinable and is a regular file, and its
metadata is readable; in every other case (error entries, directories,
unknown types, unreadable metadata) nothing is emitted, and the callback
always returns `Continue`, never failing the traversal. -/
theorem walk_emits_iff_regular_file_with_metadata
    (scanId : Int) (res : IoResult DirEntry) :
    (processEntry scanId res).2 = WalkState.Continue ∧
    ((∃ r, (processEntry scanId res).1 = some r) ↔
      ∃ ent, res = IoResult.ok ent ∧
        (∃ ft, ent.fileType = some ft ∧ ft.is_file = true) ∧
        ∃ meta, ent.metadata = IoResult.ok meta) := by
  constructor
  · cases (processEntry scanId res).2
    rfl
  · constructor
    · rintro ⟨r, hr⟩
      cases res with
      | err => simp [processEntry] at hr
      | ok ent =>
        cases hft : ent.fileType with
        | none => simp [processEntry, hft] at hr
        | some ft =>
          cases hfile : ft.is_file with
          | false => simp [processEntry, hft, hfile] at hr
          | true =>
            cases hmeta : ent.metadata with
            | err => simp [processEntry, hft, hfile, hmeta] at hr
            | ok meta => exact ⟨ent, rfl, ⟨ft, hft, hfile⟩, meta, hmeta⟩
    · rintro ⟨ent, hres, ⟨ft, hft, hfile⟩, meta, hmeta⟩
      subst hres
      refine ⟨{ name := ent.fileName
                ext := (pathExtension ent.fileName).getD ("unknown".data)
                path := ent.pathStr
                size := meta.len
                mtime := meta.modifiedStr.getD ("1970-01-01T00:00:00Z".data)
                scanId := scanId }, ?_⟩
      simp [processEntry, hft, hfile, hmeta]

/-- C7 witness: a readable regular file is emitted; the same entry as a
directory is not. -/
theorem walk_emits_iff_regular_file_with_metadata_witness :
    (∃ r, (processEntry 1 (IoResult.ok
      ⟨"a.txt".data, "/d/a.txt".data, some .file, .ok ⟨5, none⟩⟩)).1
        = some r) ∧
    ¬ (∃ r, (processEntry 1 (IoResult.ok
      ⟨"a.txt".data, "/d/a.txt".data, some .dir, .ok ⟨5, none⟩⟩)).1
        = some r) := by
  constructor
  · exact (walk_emits_iff_regular_file_with_metadata 1 _).2.mpr
      ⟨_, rfl, ⟨.file, rfl, rfl⟩, _, rfl⟩
  · intro h
    obtain ⟨ent, hres, ⟨ft, hft, hfile⟩, -⟩ :=
      (walk_emits_iff_regular_file_with_metadata 1 _).2.mp h
    cases hres
    simp at hft
    subst hft
    simp [EntryFileType.is_file] at hfile

/-- Helper: the walker callback's Record, projected on its scan-id-free
fields, does not depend on the scan id. -/
theorem processEntry_key_scan_id_free (sid sid' : Int)
    (res : IoResult DirEntry) :
    ((processEntry sid res).1).map recordKey
      = ((processEntry sid' res).1).map recordKey := by
  cases res with
  | err => rfl
  | ok ent =>
    cases hft : ent.fileType with
    | none => simp [processEntry, hft]
    | some ft =>
      cases hfile : ft.is_file with
      | false => simp [processEntry, hft, hfile]
      | true =>
        cases hmeta : ent.metadata with
        | err => simp [processEntry, hft, hfile, hmeta]
        | ok meta => simp [processEntry, hft, hfile, hmeta, recordKey]

/-- C9: crawling the same unchanged set of directory entries twice — in any
traversal order — with two different scan ids yields the same Record
multiset once the scan-id field is ignored (order-independent equality of
the name/extension/path/size/mtime tuples). -/
theorem crawl_records_independent_of_scan_id
    (entries entries' : List (IoResult DirEntry)) (sid sid' : Int)
    (h : entries.Perm entries') :
    ((walkRecords sid entries).map recordKey).Perm
      ((walkRecords sid' entries').map recordKey) := by
  rw [walkRecords, walkRecords, List.map_filterMap, List.map_filterMap]
  have heq : entries'.filterMap
        (fun res => ((processEntry sid' res).1).map recordKey)
      = entries'.filterMap
        (fun res => ((processEntry sid res).1).map recordKey) :=
    List.filterMap_congr
      (fun res _ => processEntry_key_scan_id_free sid' sid res)
  rw [heq]
  exact h.filterMap _

/-- C9 witness: two entries visited in opposite orders under scan ids 1 and
2 give permutation-equal key lists. -/
theorem crawl_records_independent_of_scan_id_witness :
    ((walkRecords 1
        [IoResult.ok ⟨"a.txt".data, "/d/a.txt".data, some .file, .ok ⟨5, none⟩⟩,
         IoResult.ok ⟨"b.txt".data, "/d/b.txt".data, some .file, .ok ⟨7, none⟩⟩]).map
      recordKey).Perm
      ((walkRecords 2
        [IoResult.ok ⟨"b.txt".data, "/d/b.txt".data, some .file, .ok ⟨7, none⟩⟩,
         IoResult.ok ⟨"a.txt".data, "/d/a.txt".data, some .file, .ok ⟨5, none⟩⟩]).map
      recordKey) :=
  crawl_records_independent_of_scan_id _ _ 1 2 (List.Perm.swap _ _ _)

/-- Helper: a list whose last element is known contains it. -/
theorem mem_of_getLast?_eq_some {α : Type} {l : List α} {a : α}
    (h : l.getLast? = some a) : a ∈ l := by
  obtain ⟨hne, heq⟩ :=
    List.mem_getLast?_eq_getLast (Option.mem_def.mpr h)
  rw [heq]
  exact List.getLast_mem hne

/-- Helper: `stripCr` keeps a first element when more follow. -/
theorem stripCr_cons {x : Char} {l : Str} (h : l ≠ []) :
    stripCr (x :: l) = x :: stripCr l := by
  match l, h with
  | y :: l', _ =>
    show stripCr (x :: y :: l') = x :: stripCr (y :: l')
    unfold stripCr
    rw [List.getLast?_cons_cons]
    by_cases hr : (y :: l').getLast? = some '\r'
    · rw [if_pos hr, if_pos hr]
      rfl
    · rw [if_neg hr, if_neg hr]

/-- Helper: on newline-free text `crlfToLf` is the identity. -/
theorem crlfToLf_of_no_newline {s : Str} (h : '\n' ∉ s) : crlfToLf s = s := by
  induction s using crlfToLf.induct with
  | case1 => rfl
  | case2 c => rfl
  | case3 c d rest hcd ih =>
    exact absurd (hcd.2 ▸ List.mem_cons_of_mem c (List.mem_cons_self d rest))
      h
  | case4 c d rest hcd ih =>
    simp only [crlfToLf, if_neg hcd]
    rw [ih (fun hm => h (List.mem_cons_of_mem c hm))]

/-- Helper: `crlfToLf` leaves a leading `'\n'` in place. -/
theorem crlfToLf_newline_cons (t : Str) :
    crlfToLf ('\n' :: t) = '\n' :: crlfToLf t := by
  cases t with
  | nil => rfl
  | cons d r =>
    simp only [crlfToLf]
    rw [if_neg]
    rintro ⟨h1, -⟩
    exact absurd h1 (by decide)

/-- Helper: normalizing a newline-free chunk followed by `'\n'` strips one
trailing `'\r'` from the chunk, exactly as the line reader does. -/
theorem crlfToLf_append_newline {a : Str} (t : Str) (h : '\n' ∉ a) :
    crlfToLf (a ++ '\n' :: t) = stripCr a ++ '\n' :: crlfToLf t := by
  induction a with
  | nil => exact crlfToLf_newline_cons t
  | cons x a' ih =>
    cases a' with
    | nil =>
      show crlfToLf (x :: '\n' :: t) = stripCr [x] ++ '\n' :: crlfToLf t
      by_cases hx : x = '\r'
      · subst hx
        have hs : stripCr ['\r'] = [] := by decide
        simp [crlfToLf, hs]
      · have hs : stripCr [x] = [x] := by
          simp [stripCr, hx]
        simp only [crlfToLf, hs]
        rw [if_neg (fun hc => hx hc.1), crlfToLf_newline_cons]
        rfl
    | cons y a'' =>
      have hy : '\n' ∉ y :: a'' := fun hm => h (List.mem_cons_of_mem x hm)
      have hyn : y ≠ '\n' :=
        fun he => hy (he ▸ List.mem_cons_self y a'')
      have hstep : crlfToLf ((x :: y :: a'') ++ '\n' :: t)
          = x :: crlfToLf ((y :: a'') ++ '\n' :: t) := by
        show crlfToLf (x :: y :: (a'' ++ '\n' :: t))
          = x :: crlfToLf (y :: (a'' ++ '\n' :: t))
        simp only [crlfToLf]
        rw [if_neg (fun hc => hyn hc.2)]
      rw [hstep, ih hy, stripCr_cons (List.cons_ne_nil y a'')]
      rfl

/-- Helper: appending a final newline commutes with a leading chunk that
already ends in `'\n'`. -/
theorem withFinalNewline_append (x y : Str) :
    withFinalNewline (x ++ '\n' :: y) = x ++ '\n' :: withFinalNewline y := by
  have hne : x ++ '\n' :: y ≠ [] := by simp
  have hlast : (x ++ '\n' :: y).getLast? = ('\n' :: y).getLast? :=
    List.getLast?_append_cons x '\n' y
  cases y with
  | nil =>
    have h1 : withFinalNewline (x ++ ['\n']) = x ++ ['\n'] := by
      unfold withFinalNewline
      rw [if_neg hne, if_pos (by rw [hlast]; rfl)]
    rw [h1]
    simp [withFinalNewline]
  | cons d r =>
    have hlast2 : ('\n' :: d :: r).getLast? = (d :: r).getLast? :=
      List.getLast?_cons_cons
    by_cases hl : (d :: r).getLast? = some '\n'
    · have h1 : withFinalNewline (x ++ '\n' :: d :: r) = x ++ '\n' :: d :: r := by
        unfold withFinalNewline
        rw [if_neg hne, if_pos (by rw [hlast, hlast2]; exact hl)]
      have h2 : withFinalNewline (d :: r) = d :: r := by
        unfold withFinalNewline
        rw [if_neg (by simp), if_pos hl]
      rw [h1, h2]
    · have h1 : withFinalNewline (x ++ '\n' :: d :: r)
          = (x ++ '\n' :: d :: r) ++ ['\n'] := by
        unfold withFinalNewline
        rw [if_neg hne, if_neg (by rw [hlast, hlast2]; exact hl)]
      have h2 : withFinalNewline (d :: r) = (d :: r) ++ ['\n'] := by
        unfold withFinalNewline
        rw [if_neg (by simp), if_neg hl]
      rw [h1, h2]
      simp

/-- Helper: line count of a newline-free chunk, a `'\n'`, and a tail. -/
theorem fileLineCount_append_newline {acc : Str} (rest : Str)
    (h : '\n' ∉ acc) :
    fileLineCount (acc ++ '\n' :: rest) = fileLineCount rest + 1 := by
  unfold fileLineCount
  rw [List.count_append, List.count_eq_zero.mpr h]
  cases rest with
  | nil =>
    rw [List.getLast?_append_cons]
    simp
  | cons d r =>
    rw [List.getLast?_append_cons, List.getLast?_cons_cons]
    have hne : acc ++ '\n' :: d :: r ≠ [] := by simp
    by_cases hl : (d :: r).getLast? = some '\n'
    · simp [hl, List.count_cons]
      try omega
    · simp [hl, List.count_cons]
      try omega

/-- Helper: full characterisation of the `load_tsv_file` loop, for any
newline-free partial line already accumulated: the returned count is the
line count of the remaining text, one chunk is sent per counted line, and
the sent chunks reassemble the text with `"\r\n"` normalised and a final
newline ensured. -/
theorem load_tsv_aux_spec (rest : Str) : ∀ acc : Str, '\n' ∉ acc →
    (load_tsv_aux acc rest).2 = fileLineCount (acc ++ rest) ∧
    (load_tsv_aux acc rest).1.length = (load_tsv_aux acc rest).2 ∧
    (load_tsv_aux acc rest).1.flatten
      = withFinalNewline (crlfToLf (acc ++ rest)) := by
  induction rest with
  | nil =>
    intro acc hacc
    by_cases ha : acc = []
    · subst ha
      refine ⟨rfl, rfl, rfl⟩
    · have haux : load_tsv_aux acc [] = ([acc ++ ['\n']], 1) := by
        unfold load_tsv_aux
        rw [if_neg (by simpa [List.isEmpty_iff] using ha)]
      have hcount : fileLineCount (acc ++ []) = 1 := by
        unfold fileLineCount
        rw [List.append_nil, List.count_eq_zero.mpr hacc, if_neg]
        rintro (h1 | h2)
        · exact ha h1
        · exact hacc (mem_of_getLast?_eq_some h2)
      have hlf : crlfToLf (acc ++ []) = acc := by
        rw [List.append_nil]
        exact crlfToLf_of_no_newline hacc
      have hwf : withFinalNewline acc = acc ++ ['\n'] := by
        unfold withFinalNewline
        rw [if_neg ha, if_neg (fun h2 => hacc (mem_of_getLast?_eq_some h2))]
      rw [haux, List.append_nil] at *
      exact ⟨hcount.symm, rfl, by simp [hlf, hwf]⟩
  | cons c rest' ih =>
    intro acc hacc
    by_cases hc : c = '\n'
    · subst hc
      have hstep : load_tsv_aux acc ('\n' :: rest') =
          ((stripCr acc ++ ['\n']) :: (load_tsv_aux [] rest').1,
            (load_tsv_aux [] rest').2 + 1) := by
        simp [load_tsv_aux]
      obtain ⟨ihc, ihl, ihj⟩ := ih [] (by simp)
      rw [List.nil_append] at ihc ihj
      refine ⟨?_, ?_, ?_⟩
      · rw [hstep, fileLineCount_append_newline rest' hacc]
        simpa using ihc
      · rw [hstep]
        simpa using ihl
      · rw [hstep]
        show (stripCr acc ++ ['\n']) ++ (load_tsv_aux [] rest').1.flatten
          = withFinalNewline (crlfToLf (acc ++ '\n' :: rest'))
        rw [crlfToLf_append_newline rest' hacc, withFinalNewline_append, ihj]
        simp
    · have hstep : load_tsv_aux acc (c :: rest')
          = load_tsv_aux (acc ++ [c]) rest' := by
        simp [load_tsv_aux, hc]
      have hacc' : '\n' ∉ acc ++ [c] := by
        intro hmem
        rcases List.mem_append.mp hmem with h1 | h1
        · exact hacc h1
        · simp at h1
          exact hc h1.symm
      have harr : acc ++ c :: rest' = (acc ++ [c]) ++ rest' := by simp
      obtain ⟨ihc, ihl, ihj⟩ := ih (acc ++ [c]) hacc'
      rw [hstep, harr]
      exact ⟨ihc, ihl, ihj⟩

/-- C10: a successful `load_tsv_file` returns exactly the number of lines
of the input artifact (zero for an empty file), sending one chunk per line
— each input line with a `'\n'` re-appended — to the staging bulk ingest
exactly once: the sent chunks reassemble the whole input (with `"\r\n"`
normalised by the line reader and a final newline ensured). -/
theorem load_tsv_file_counts_lines (contents : Str) :
    (load_tsv_file contents).2 = fileLineCount contents ∧
    (load_tsv_file contents).1.length = (load_tsv_file contents).2 ∧
    (load_tsv_file contents).1.flatten
      = withFinalNewline (crlfToLf contents) ∧
    load_tsv_file [] = ([], 0) := by
  obtain ⟨hc, hl, hj⟩ := load_tsv_aux_spec contents [] (by simp)
  rw [List.nil_append] at hc hj
  exact ⟨hc, hl, hj, rfl⟩

/-- Helper: rendering `0` with any fuel gives no digits. -/
theorem natToCharsAux_zero (fuel : Nat) : natToCharsAux fuel 0 = [] := by
  cases fuel with
  | zero => rfl
  | succ f => simp [natToCharsAux]

/-- Helper: a digit character parses back to its value. -/
theorem charVal_digitChar {d : Nat} (h : d < 10) :
    charVal (digitChar d) = some d := by
  interval_cases d <;> rfl

/-- Helper: parsing distributes over appending digit strings. -/
theorem charsToNatAux_append (xs : Str) :
    ∀ (acc : Nat) (ys : Str),
      charsToNatAux acc (xs ++ ys)
        = (charsToNatAux acc xs).bind (fun a => charsToNatAux a ys) := by
  induction xs with
  | nil => intro acc ys; rfl
  | cons c cs ih =>
    intro acc ys
    show charsToNatAux acc (c :: (cs ++ ys)) = _
    simp only [charsToNatAux]
    cases hv : charVal c with
    | none => rfl
    | some d => exact ih (acc * 10 + d) ys

/-- Helper: parsing the rendered digits of a positive number recovers it,
onto any accumulator. -/
theorem charsToNatAux_natToCharsAux :
    ∀ (fuel n acc : Nat), 0 < n → n ≤ fuel →
      charsToNatAux acc (natToCharsAux fuel n)
        = some (acc * 10 ^ (natToCharsAux fuel n).length + n) := by
  intro fuel
  induction fuel with
  | zero => intro n acc hn hle; omega
  | succ f ih =>
    intro n acc hn hle
    have hne : ¬ n = 0 := Nat.pos_iff_ne_zero.mp hn
    rw [natToCharsAux, if_neg hne]
    by_cases h10 : n < 10
    · have hdiv : n / 10 = 0 := Nat.div_eq_of_lt h10
      have hmod : n % 10 = n := Nat.mod_eq_of_lt h10
      rw [hdiv, natToCharsAux_zero, List.nil_append]
      show charsToNatAux acc [digitChar (n % 10)] = _
      simp only [charsToNatAux, hmod, charVal_digitChar h10]
      simp
    · have hdpos : 0 < n / 10 := Nat.div_pos (Nat.le_of_not_lt h10) (by omega)
      have hdlt : n / 10 < n := Nat.div_lt_self hn (by omega)
      have hdle : n / 10 ≤ f := by omega
      rw [charsToNatAux_append]
      rw [ih (n / 10) acc hdpos hdle]
      show charsToNatAux (acc * 10 ^ (natToCharsAux f (n / 10)).length + n / 10)
          [digitChar (n % 10)] = _
      have hmlt : n % 10 < 10 := Nat.mod_lt n (by omega)
      simp only [charsToNatAux, charVal_digitChar hmlt]
      rw [List.length_append, List.length_cons, List.length_nil]
      congr 1
      generalize (natToCharsAux f (n / 10)).length = L
      have hdm : n / 10 * 10 + n % 10 = n := Nat.div_add_mod' n 10
      calc (acc * 10 ^ L + n / 10) * 10 + n % 10
          = acc * (10 ^ L * 10) + (n / 10 * 10 + n % 10) := by ring
        _ = acc * 10 ^ (L + 0 + 1) + n := by rw [hdm, pow_succ]

/-- Helper: the rendering of a positive number is nonempty. -/
theorem natToCharsAux_ne_nil {n : Nat} (hn : 0 < n) {fuel : Nat}
    (hle : n ≤ fuel) : natToCharsAux fuel n ≠ [] := by
  intro hnil
  have h := charsToNatAux_natToCharsAux fuel n 0 hn hle
  rw [hnil] at h
  simp [charsToNatAux] at h
  omega

/-- Helper: decimal rendering of a natural number round-trips. -/
theorem charsToNat_natToChars (n : Nat) :
    charsToNat (natToChars n) = some n := by
  by_cases hn : n = 0
  · subst hn; decide
  · have hp : 0 < n := Nat.pos_iff_ne_zero.mpr hn
    have hform : natToChars n = natToCharsAux n n := by
      unfold natToChars; rw [if_neg hn]
    cases hsh : natToCharsAux n n with
    | nil => exact absurd hsh (natToCharsAux_ne_nil hp (le_refl n))
    | cons c cs =>
      rw [hform, hsh]
      show charsToNatAux 0 (c :: cs) = some n
      rw [← hsh, charsToNatAux_natToCharsAux n n 0 hp (le_refl n)]
      simp

/-- Helper: every rendered character is a digit character. -/
theorem mem_natToCharsAux {c : Char} :
    ∀ {fuel n : Nat}, c ∈ natToCharsAux fuel n →
      ∃ d, d < 10 ∧ c = digitChar d := by
  intro fuel
  induction fuel with
  | zero => intro n h; simp [natToCharsAux] at h
  | succ f ih =>
    intro n h
    rw [natToCharsAux] at h
    by_cases hn : n = 0
    · rw [if_pos hn] at h; simp at h
    · rw [if_neg hn] at h
      rcases List.mem_append.mp h with h1 | h1
      · exact ih h1
      · simp at h1
        exact ⟨n % 10, Nat.mod_lt n (by omega), h1⟩

/-- Helper: every character of a rendered natural number is a digit. -/
theorem mem_natToChars {c : Char} {n : Nat} (h : c ∈ natToChars n) :
    ∃ d, d < 10 ∧ c = digitChar d := by
  unfold natToChars at h
  by_cases hn : n = 0
  · rw [if_pos hn] at h
    simp at h
    exact ⟨0, by omega, by rw [h]; rfl⟩
  · rw [if_neg hn] at h
    exact mem_natToCharsAux h

/-- Helper: a digit character is never a tab, newline, or minus sign. -/
theorem digitChar_not_special (d : Nat) :
    digitChar d ≠ '\t' ∧ digitChar d ≠ '\n' ∧ digitChar d ≠ '-' := by
  unfold digitChar
  repeat' split
  all_goals exact ⟨by decide, by decide, by decide⟩

/-- Helper: a rendered natural number contains no tab and no newline. -/
theorem natToChars_clean (n : Nat) :
    '\t' ∉ natToChars n ∧ '\n' ∉ natToChars n := by
  constructor <;> intro hmem
  · obtain ⟨d, -, hd⟩ := mem_natToChars hmem
    exact (digitChar_not_special d).1 hd.symm
  · obtain ⟨d, -, hd⟩ := mem_natToChars hmem
    exact (digitChar_not_special d).2.1 hd.symm

/-- Helper: a rendered integer contains no tab and no newline. -/
theorem intToChars_clean (i : Int) :
    '\t' ∉ intToChars i ∧ '\n' ∉ intToChars i := by
  unfold intToChars
  by_cases hi : i < 0
  · rw [if_pos hi]
    constructor <;> intro hmem <;> rcases List.mem_cons.mp hmem with h1 | h1
    · exact absurd h1.symm (by decide)
    · exact (natToChars_clean _).1 h1
    · exact absurd h1.symm (by decide)
    · exact (natToChars_clean _).2 h1
  · rw [if_neg hi]
    exact natToChars_clean _

/-- Helper: the rendering of a natural number is nonempty. -/
theorem natToChars_ne_nil (n : Nat) : natToChars n ≠ [] := by
  unfold natToChars
  by_cases hn : n = 0
  · rw [if_pos hn]; simp
  · rw [if_neg hn]
    exact natToCharsAux_ne_nil (Nat.pos_iff_ne_zero.mpr hn) (le_refl n)

/-- Helper: decimal rendering of an integer round-trips. -/
theorem charsToInt_intToChars (i : Int) :
    charsToInt (intToChars i) = some i := by
  unfold intToChars
  by_cases hi : i < 0
  · rw [if_pos hi]
    show charsToInt ('-' :: natToChars (-i).toNat) = some i
    unfold charsToInt
    dsimp only
    rw [if_pos rfl, charsToNat_natToChars]
    simp only [Option.map_some']
    congr 1
    show -(((-i).toNat : Int)) = i
    omega
  · rw [if_neg hi]
    cases hsh : natToChars i.toNat with
    | nil => exact absurd hsh (natToChars_ne_nil _)
    | cons c cs =>
      have hc : c ≠ '-' := by
        have hmem : c ∈ natToChars i.toNat := by
          rw [hsh]; exact List.mem_cons_self c cs
        obtain ⟨d, -, hd⟩ := mem_natToChars hmem
        rw [hd]
        exact (digitChar_not_special d).2.2
      show charsToInt (c :: cs) = some i
      unfold charsToInt
      dsimp only
      rw [if_neg hc, ← hsh, charsToNat_natToChars]
      simp only [Option.map_some']
      congr 1
      show ((i.toNat : Int)) = i
      omega

/-- Helper: splitting never yields an empty field list. -/
theorem splitTabs_ne_nil (s : Str) : splitTabs s ≠ [] := by
  cases s with
  | nil => simp [splitTabs]
  | cons c rest =>
    rcases h : splitTabs rest with _ | ⟨f, fs⟩
    · simp [splitTabs, h]
    · simp only [splitTabs, h]
      split <;> simp

/-- Helper: a tab-free text is a single field. -/
theorem splitTabs_no_tab {s : Str} (h : '\t' ∉ s) : splitTabs s = [s] := by
  induction s with
  | nil => rfl
  | cons c rest ih =>
    have hrest : splitTabs rest = [rest] :=
      ih (fun hm => h (List.mem_cons_of_mem c hm))
    have hc : c ≠ '\t' := fun he => h (he ▸ List.mem_cons_self c rest)
    simp [splitTabs, hrest, hc]

/-- Helper: a tab after a tab-free prefix splits off one field. -/
theorem splitTabs_append {a : Str} (b : Str) (h : '\t' ∉ a) :
    splitTabs (a ++ '\t' :: b) = a :: splitTabs b := by
  induction a with
  | nil =>
    rcases hb : splitTabs b with _ | ⟨f, fs⟩
    · exact absurd hb (splitTabs_ne_nil b)
    · simp [splitTabs, hb]
  | cons x a' ih =>
    have ha' : '\t' ∉ a' := fun hm => h (List.mem_cons_of_mem x hm)
    have hx : x ≠ '\t' := fun he => h (he ▸ List.mem_cons_self x a')
    have hrec := ih ha'
    show splitTabs (x :: (a' ++ '\t' :: b)) = (x :: a') :: splitTabs b
    rcases hb : splitTabs b with _ | ⟨f, fs⟩
    · exact absurd hb (splitTabs_ne_nil b)
    · rw [hb] at hrec
      simp [splitTabs, hrec, hx, hb]

/-- C4 counterexample: a regular file whose name contains the tab
delimiter is emitted as a Record whose artifact line does not parse back:
the fields are not escaped, so the claim's "delimiter that cannot occur in
any field" fails on the code. -/
theorem tab_in_filename_breaks_roundtrip :
    (processEntry 7 (IoResult.ok
      { fileName := "a\tb.txt".data, pathStr := "/data/a\tb.txt".data,
        fileType := some .file,
        metadata := .ok { len := 3, modifiedStr := none } })).1
      = some { name := "a\tb.txt".data, ext := "txt".data,
               path := "/data/a\tb.txt".data, size := 3,
               mtime := "1970-01-01T00:00:00Z".data, scanId := 7 } ∧
    parseLine (formatLine
      { name := "a\tb.txt".data, ext := "txt".data,
        path := "/data/a\tb.txt".data, size := 3,
        mtime := "1970-01-01T00:00:00Z".data, scanId := 7 }) = none := by
  constructor
  · decide
  · decide

/-- C4 (amended): for every emitted Record whose name, extension, path and
mtime fields are free of tabs and newlines, the artifact holds exactly one
well-formed line for it — six tab-separated fields, newline-terminated, no
header — and that line parses back into exactly the original Record.
(Fields are written unescaped, so the guarantee requires the fields not to
contain the delimiter or a newline; a file name containing either breaks
it.) -/
theorem artifact_line_roundtrip (r : Record)
    (hn : cleanField r.name) (he : cleanField r.ext) (hp : cleanField r.path)
    (hm : cleanField r.mtime) :
    parseLine (formatLine r) = some r := by
  obtain ⟨hnt, hnn⟩ := hn
  obtain ⟨het, hen⟩ := he
  obtain ⟨hpt, hpn⟩ := hp
  obtain ⟨hmt, hmn⟩ := hm
  have hform : formatLine r
      = (r.name ++ '\t' :: (r.ext ++ '\t' :: (r.path ++ '\t' ::
          (natToChars r.size ++ '\t' :: (r.mtime ++ '\t' ::
            intToChars r.scanId))))) ++ ['\n'] := rfl
  set body := r.name ++ '\t' :: (r.ext ++ '\t' :: (r.path ++ '\t' ::
    (natToChars r.size ++ '\t' :: (r.mtime ++ '\t' ::
      intToChars r.scanId)))) with hbody
  have hlast : (body ++ ['\n']).getLast? = some '\n' :=
    List.getLast?_concat body
  have hdrop : (body ++ ['\n']).dropLast = body := List.dropLast_concat
  have hnlb : '\n' ∉ body := by
    rw [hbody]
    simp [List.mem_append, List.mem_cons, hnn, hen, hpn, hmn,
      (natToChars_clean r.size).2, (intToChars_clean r.scanId).2]
  have hsplit : splitTabs body
      = [r.name, r.ext, r.path, natToChars r.size, r.mtime,
         intToChars r.scanId] := by
    rw [hbody, splitTabs_append _ hnt, splitTabs_append _ het,
      splitTabs_append _ hpt,
      splitTabs_append _ (natToChars_clean r.size).1,
      splitTabs_append _ hmt,
      splitTabs_no_tab (intToChars_clean r.scanId).1]
  rw [hform]
  unfold parseLine
  rw [if_pos ⟨hlast, by rw [hdrop]; exact hnlb⟩, hdrop, hsplit]
  dsimp only
  rw [charsToNat_natToChars, charsToInt_intToChars]

/-- C4 witness: a record with clean fields round-trips through its
artifact line. -/
theorem artifact_line_roundtrip_witness :
    parseLine (formatLine
      { name := "a.txt".data, ext := "txt".data, path := "/d/a.txt".data,
        size := 5, mtime := "1970-01-01T00:00:00Z".data, scanId := 1 })
      = some { name := "a.txt".data, ext := "txt".data,
               path := "/d/a.txt".data, size := 5,
               mtime := "1970-01-01T00:00:00Z".data, scanId := 1 } :=
  artifact_line_roundtrip _ (by decide) (by decide) (by decide) (by decide)

/-- Helper: when its textual fields are newline-free, a Record's formatted
line contains exactly one newline — its terminator. -/
theorem count_newline_formatLine {r : Record} (hnn : '\n' ∉ r.name)
    (hen : '\n' ∉ r.ext) (hpn : '\n' ∉ r.path) (hmn : '\n' ∉ r.mtime) :
    (formatLine r).count '\n' = 1 := by
  have h0 : ∀ s : Str, '\n' ∉ s → s.count '\n' = 0 :=
    fun s h => List.count_eq_zero.mpr h
  unfold formatLine
  simp [List.count_append, List.count_cons, h0 _ hnn, h0 _ hen, h0 _ hpn,
    h0 _ hmn, h0 _ (natToChars_clean r.size).2,
    h0 _ (intToChars_clean r.scanId).2]

/-- C5 counterexample: one regular file whose name contains a newline is
counted once by the progress counter, yet its unescaped artifact line
spans three text lines, so the final summary total does not equal the
artifact's line count. -/
theorem newline_in_filename_breaks_line_count :
    (walkRecords 7 [IoResult.ok
      { fileName := "a\nb".data, pathStr := "/data/a\nb".data,
        fileType := some .file,
        metadata := .ok { len := 3, modifiedStr := none } }]).length = 1 ∧
    (artifactChars ((walkRecords 7 [IoResult.ok
      { fileName := "a\nb".data, pathStr := "/data/a\nb".data,
        fileType := some .file,
        metadata := .ok { len := 3, modifiedStr := none } }]).map formatLine)
      (fun _ => true)).count '\n' = 3 := by
  constructor
  · decide
  · decide

/-- C5 (amended): the shared progress counter is incremented exactly once
per emitted Record and is monotonically increasing, and at every moment
its value never exceeds the final total Record count, which it reaches at
the end of the walk; and whenever every emitted Record's textual fields
are newline-free, the number of text lines of the completed artifact
equals that final total (an unescaped newline in a field breaks the
equality). -/
theorem progress_counter_bounds (scanId : Int)
    (entries : List (IoResult DirEntry)) :
    (∀ j k, j ≤ k →
      counterAfter scanId entries j ≤ counterAfter scanId entries k) ∧
    (∀ k, counterAfter scanId entries k
      ≤ (walkRecords scanId entries).length) ∧
    counterAfter scanId entries entries.length
      = (walkRecords scanId entries).length ∧
    ((∀ r ∈ walkRecords scanId entries,
        '\n' ∉ r.name ∧ '\n' ∉ r.ext ∧ '\n' ∉ r.path ∧ '\n' ∉ r.mtime) →
      (artifactChars ((walkRecords scanId entries).map formatLine)
        (fun _ => true)).count '\n'
        = (walkRecords scanId entries).length) := by
  refine ⟨?_, ?_, ?_, ?_⟩
  · intro j k hjk
    have heq : (entries.take k).take j = entries.take j := by
      rw [List.take_take, min_eq_left hjk]
    have hsub : List.Sublist (entries.take j) (entries.take k) :=
      heq ▸ List.take_sublist j (entries.take k)
    exact List.Sublist.length_le (hsub.filterMap _)
  · intro k
    exact List.Sublist.length_le ((List.take_sublist k entries).filterMap _)
  · unfold counterAfter
    rw [List.take_length]
  · unfold artifactChars
    rw [List.filter_true, List.enum_map_snd, List.count_flatten]
    generalize walkRecords scanId entries = rs
    induction rs with
    | nil => intro _; rfl
    | cons r rs ih =>
      intro hclean
      have hr := hclean r (List.mem_cons_self r rs)
      have hrest : ∀ x ∈ rs, '\n' ∉ x.name ∧ '\n' ∉ x.ext ∧ '\n' ∉ x.path ∧
          '\n' ∉ x.mtime :=
        fun x hx => hclean x (List.mem_cons_of_mem r hx)
      simp only [List.map_cons, List.sum_cons, List.length_cons]
      rw [count_newline_formatLine hr.1 hr.2.1 hr.2.2.1 hr.2.2.2, ih hrest]
      omega

/-- C5 witness: on a one-clean-file crawl the counter is monotone and the
completed artifact has exactly one line, matching the final total. -/
theorem progress_counter_bounds_witness :
    counterAfter 1 [IoResult.ok
      { fileName := "a.txt".data, pathStr := "/d/a.txt".data,
        fileType := some .file,
        metadata := .ok { len := 5, modifiedStr := none } }] 0
      ≤ counterAfter 1 [IoResult.ok
      { fileName := "a.txt".data, pathStr := "/d/a.txt".data,
        fileType := some .file,
        metadata := .ok { len := 5, modifiedStr := none } }] 1 ∧
    (artifactChars ((walkRecords 1 [IoResult.ok
      { fileName := "a.txt".data, pathStr := "/d/a.txt".data,
        fileType := some .file,
        metadata := .ok { len := 5, modifiedStr := none } }]).map formatLine)
      (fun _ => true)).count '\n'
      = (walkRecords 1 [IoResult.ok
      { fileName := "a.txt".data, pathStr := "/d/a.txt".data,
        fileType := some .file,
        metadata := .ok { len := 5, modifiedStr := none } }]).length := by
  constructor
  · exact (progress_counter_bounds 1 _).1 0 1 (by omega)
  · exact (progress_counter_bounds 1 _).2.2.2 (by decide)

/-- C2 counterexample: a crawl of one regular file in which every Sink
Writer write fails still returns success — the write error is discarded —
while the failed line is silently missing from the artifact. -/
theorem writer_failure_not_propagated :
    exceptIsOk (walk_directory ("/data".data) 1
      [IoResult.ok
        { fileName := "a.txt".data, pathStr := "/data/a.txt".data,
          fileType := some .file,
          metadata := .ok { len := 5, modifiedStr := none } }]
      (fun _ => false)).1 = true ∧
    (walk_directory ("/data".data) 1
      [IoResult.ok
        { fileName := "a.txt".data, pathStr := "/data/a.txt".data,
          fileType := some .file,
          metadata := .ok { len := 5, modifiedStr := none } }]
      (fun _ => false)).2 = [] ∧
    (walkRecords 1
      [IoResult.ok
        { fileName := "a.txt".data, pathStr := "/data/a.txt".data,
          fileType := some .file,
          metadata := .ok { len := 5, modifiedStr := none } }]).length
      = 1 := by
  refine ⟨rfl, by decide, by decide⟩

/-- C2 (amended): a Sink Writer write failure does not abort the crawl
phase: `walk_directory` discards writer outcomes, so its result is always
success, identical under any pattern of write failures, and reports the
full emitted-record count — failed lines are only missing from the
artifact, no error propagates to the Orchestrator. -/
theorem walk_directory_result_independent_of_writes (dataRoot : Str)
    (scanId : Int) (entries : List (IoResult DirEntry))
    (writeOk writeOk' : Nat → Bool) :
    exceptIsOk (walk_directory dataRoot scanId entries writeOk).1 = true ∧
    (walk_directory dataRoot scanId entries writeOk).1
      = (walk_directory dataRoot scanId entries writeOk').1 ∧
    (walk_directory dataRoot scanId entries writeOk).1
      = Except.ok
          { dataRoot := dataRoot
            totalFiles := (walkRecords scanId entries).length } :=
  ⟨rfl, rfl, rfl⟩

/-- C1 counterexample: with a nonexistent root the orchestrator still
invokes `start_scan` first — a ScanRun row is created — and the crawl does
not fail with any `RootNotFound` condition: the walker's root read error
is skipped and `walk_directory` returns success with zero files, so every
later phase runs. -/
theorem missing_root_creates_scan_run :
    mainRun false []
      = [MainEvent.startScan, MainEvent.walk, MainEvent.load,
         MainEvent.delta, MainEvent.clearStaging, MainEvent.finalize,
         MainEvent.removeArtifact] ∧
    (walk_directory ("/data".data) 1 (rootEntries false [])
      (fun _ => true)).1
      = Except.ok { dataRoot := "/data".data, totalFiles := 0 } :=
  ⟨rfl, rfl⟩

/-- C1 (amended): for every run whose root path does not exist, no
pre-crawl existence check fires: `start_scan` is invoked first regardless
(the ScanRun row is created), the missing root reaches the walker as a
single error entry that is silently skipped, and the crawl completes
successfully with zero Records instead of failing. -/
theorem missing_root_run (tree : List (IoResult DirEntry)) :
    (mainRun false tree).head? = some MainEvent.startScan ∧
    mainRun false tree
      = [MainEvent.startScan, MainEvent.walk, MainEvent.load,
         MainEvent.delta, MainEvent.clearStaging, MainEvent.finalize,
         MainEvent.removeArtifact] ∧
    walkRecords 1 (rootEntries false tree) = [] ∧
    exceptIsOk (walk_directory ("/data".data) 1 (rootEntries false tree)
      (fun _ => true)).1 = true :=
  ⟨rfl, rfl, rfl, rfl⟩

/-- C8 counterexample: in a successful run the orchestrator purges the
StagingArea (`clear_staging`, line 112) strictly before it writes the
aggregates and `finished_at` into the ScanRun row (`finalize_scan`,
line 119), contradicting the claimed row-update-then-purge order. -/
theorem staging_purged_before_finalize :
    mainRun true []
      = [MainEvent.startScan, MainEvent.walk, MainEvent.load,
         MainEvent.delta, MainEvent.clearStaging, MainEvent.finalize,
         MainEvent.removeArtifact] ∧
    (mainRun true []).indexOf MainEvent.clearStaging
      < (mainRun true []).indexOf MainEvent.finalize :=
  ⟨rfl, by decide⟩

/-- C8 (amended): in every successful run the Finalized phase runs in the
code's order: the delta computation completes first, then the StagingArea
rows for the scan are purged, then the aggregates and `finished_at` are
written into the ScanRun row, and the local staging artifact is deleted
last; in particular the ScanRun finalize always happens after the delta
computation result is available. -/
theorem finalize_phase_order (tree : List (IoResult DirEntry)) :
    (mainRun true tree).indexOf MainEvent.delta
      < (mainRun true tree).indexOf MainEvent.clearStaging ∧
    (mainRun true tree).indexOf MainEvent.clearStaging
      < (mainRun true tree).indexOf MainEvent.finalize ∧
    (mainRun true tree).indexOf MainEvent.finalize
      < (mainRun true tree).indexOf MainEvent.removeArtifact ∧
    (mainRun true tree).indexOf MainEvent.delta
      < (mainRun true tree).indexOf MainEvent.finalize := by
  have h : mainRun true tree
      = [MainEvent.startScan, MainEvent.walk, MainEvent.load,
         MainEvent.delta, MainEvent.clearStaging, MainEvent.finalize,
         MainEvent.removeArtifact] := rfl
  rw [h]
  refine ⟨by decide, by decide, by decide, by decide⟩

/-- Helper: the event list is exhaustive. -/
theorem mem_allWEvents (e : WEvent) : e ∈ allWEvents := by
  cases e <;> simp [allWEvents]

/-- Helper: any execution respecting the happens-before order places a
happens-before-earlier event at a smaller position. -/
theorem isSchedule_hb_lt {l : List WEvent} (hl : isSchedule l = true)
    {a b : WEvent} (hab : hb a b = true) :
    l.indexOf a < l.indexOf b := by
  unfold isSchedule at hl
  simp only [Bool.and_eq_true, List.all_eq_true] at hl
  have hord := hl.2 a (mem_allWEvents a) b (mem_allWEvents b)
  rw [hab] at hord
  simpa using hord

/-- C3 counterexample: `walk_directory` signals and joins the progress
thread (lines 157–161) before joining the writer thread (line 162), so
there is a valid execution — respecting every synchronization in the code
— in which the Progress Monitor is signaled to stop and awaited while the
Sink Writer has not yet flushed and closed the artifact. -/
theorem monitor_stopped_before_writer_close :
    isSchedule lateWriterSchedule = true ∧
    lateWriterSchedule.indexOf WEvent.stopSignal
      < lateWriterSchedule.indexOf WEvent.writerFlushClose ∧
    lateWriterSchedule.indexOf WEvent.progressJoined
      < lateWriterSchedule.indexOf WEvent.writerFlushClose := by
  refine ⟨by decide, by decide, by decide⟩

/-- C3 (amended): in every execution of the crawl shutdown, the Sink
Writer sees end of input only after every traversal worker's sender handle
and the main sender have been released (no Record in flight is lost), the
Progress Monitor is signaled to stop only after every worker has released
its handle, and the writer has flushed and closed — and both threads are
joined — before the final statistics are computed and `walk_directory`
returns; however the progress monitor's stop is not ordered after the
writer's flush+close: the writer is joined after the progress thread. -/
theorem shutdown_order (l : List WEvent) (h : isSchedule l = true) :
    l.indexOf WEvent.workerRelease1 < l.indexOf WEvent.writerSeesEnd ∧
    l.indexOf WEvent.workerRelease2 < l.indexOf WEvent.writerSeesEnd ∧
    l.indexOf WEvent.dropMainTx < l.indexOf WEvent.writerSeesEnd ∧
    l.indexOf WEvent.writerSeesEnd < l.indexOf WEvent.writerFlushClose ∧
    l.indexOf WEvent.workerRelease1 < l.indexOf WEvent.stopSignal ∧
    l.indexOf WEvent.workerRelease2 < l.indexOf WEvent.stopSignal ∧
    l.indexOf WEvent.stopSignal < l.indexOf WEvent.progressJoined ∧
    l.indexOf WEvent.progressJoined < l.indexOf WEvent.writerJoined ∧
    l.indexOf WEvent.writerFlushClose < l.indexOf WEvent.writerJoined ∧
    l.indexOf WEvent.writerJoined < l.indexOf WEvent.finalStats :=
  ⟨isSchedule_hb_lt h (by decide), isSchedule_hb_lt h (by decide),
   isSchedule_hb_lt h (by decide), isSchedule_hb_lt h (by decide),
   isSchedule_hb_lt h (by decide), isSchedule_hb_lt h (by decide),
   isSchedule_hb_lt h (by decide), isSchedule_hb_lt h (by decide),
   isSchedule_hb_lt h (by decide), isSchedule_hb_lt h (by decide)⟩

/-- C3 witness: the source-order schedule is a valid execution, and in it
each worker releases its handle before the writer sees end of input. -/
theorem shutdown_order_witness :
    sourceOrderSchedule.indexOf WEvent.workerRelease1
      < sourceOrderSchedule.indexOf WEvent.writerSeesEnd ∧
    sourceOrderSchedule.indexOf WEvent.writerJoined
      < sourceOrderSchedule.indexOf WEvent.finalStats :=
  ⟨(shutdown_order sourceOrderSchedule (by decide)).1,
   (shutdown_order sourceOrderSchedule (by decide)).2.2.2.2.2.2.2.2.2⟩
